import Mathlib

/-!
# Verification of eleveldb `c_src/workitems.h`

A shallow embedding of the async work-item layer of eleveldb (the Erlang
wrapper for LevelDB).  The tasks in `workitems.h` bridge Erlang caller
processes to a native LevelDB instance running on a worker-thread pool.

Embedded here, following the source:
* the result union (`work_result`) built from the atoms used by the tasks;
* `GetTask::DoWork` with its `BinaryValue` write-only sink;
* `WriteTask::DoWork`;
* `CloseTask::DoWork` / `ItrCloseTask::DoWork` and their interaction with
  the reference-counted handles;
* `IterTask::DoWork` and the `MoveTask` construction / delivery path;
* the `WorkTask` reference-retention contract.

Parts of the repository that `workitems.h` only declares (the bodies in
`workitems.cc`, the `ReferencePtr`/`RefObject` machinery of `refobjects.h`,
and the external LevelDB engine) are modelled from the design document's
description; each such definition carries a doc comment saying so.
-/

namespace Eleveldb

/-- Erlang binaries (keys, values, payloads) are modelled as `String`,
with Lean's lexicographic order standing in for LevelDB's bytewise
comparator. -/
abbrev Bytes := String

/-- `leveldb::Status`: `ok()` holds only for the `ok` constructor; every
other constructor carries the engine's diagnostic text. -/
inductive Status
  | ok
  | notFound (msg : Bytes)
  | corruption (msg : Bytes)
  | ioError (msg : Bytes)
  deriving DecidableEq, Repr

def Status.isOk : Status → Bool
  | .ok => true
  | _ => false

/-- The diagnostic text carried by a status (`Status::ToString`). -/
def Status.text : Status → Bytes
  | .ok => "OK"
  | .notFound m => m
  | .corruption m => m
  | .ioError m => m

/-- The result union a task's `DoWork` returns (`work_result` built from
the atoms in `atoms.h`): bare `ATOM_OK`, `{ok, Payload}` from
`work_result(env, ATOM_OK, value_bin)`, `{ok, Resource}` for handle
creation, `{ok, Key}` / `{ok, Key, Value}` for iterator moves, bare
`ATOM_NOT_FOUND`, `{ErrAtom, StatusText}` from
`work_result(env, ERR_ATOM, status)`, `{error, badarg}` from
`work_result(env, ATOM_ERROR, ATOM_BADARG)`, and the iterator's
out-of-range outcome. -/
inductive WResult
  | okAtom
  | okPayload (v : Bytes)
  | okResource (r : Nat)
  | okKey (k : Bytes)
  | okKeyVal (k v : Bytes)
  | notFound
  | errorStatus (errAtom : Bytes) (diagnostic : Bytes)
  | errorBadArg
  | outOfRange
  deriving DecidableEq, Repr

/-- Whether a result is an ERROR outcome (`{error, _}`-shaped). -/
def WResult.isError : WResult → Bool
  | .errorStatus _ _ => true
  | .errorBadArg => true
  | _ => false

/-! ## GetTask (`workitems.h` lines 220-260) and BinaryValue (188-212) -/

/-- The three possible behaviours of the engine collaborator on a point
lookup (`leveldb::DB::Get` through a `leveldb::Value` sink, per the
collaborator contract `get(handle, key, readConfig) → bytes|notfound|error`):
the key is present with stored bytes `v`, the key is absent, or the engine
hits an I/O failure with diagnostic `msg`. -/
inductive GetOutcome
  | found (v : Bytes)
  | missing
  | ioFailure (msg : Bytes)
  deriving DecidableEq, Repr

/-- `BinaryValue::assign(data, size)`: allocate a fresh binary of `size`
bytes in the task's env via `enif_make_new_binary` (binding `m_value_bin`
to it) and `memcpy` the data straight into that binary.  The first
component is the environment's allocation list extended by the one new
binary; the second is the term `m_value_bin` now denotes. -/
def BinaryValue.assign (envAllocs : List Bytes) (data : Bytes) :
    List Bytes × Bytes :=
  (envAllocs ++ [data], data)

/-- What one run of `GetTask::DoWork` produced: the returned
`work_result` and every binary allocated into `local_env()` while the
value sink was in use. -/
structure GetRun where
  result : WResult
  allocations : List Bytes
  deriving DecidableEq, Repr

/-- `GetTask::DoWork`: declare `value_bin`, wrap it in a `BinaryValue`
sink over `local_env()`, call `m_DbPtr->m_Db->Get(options, key, &value)`
(on a hit the engine writes the stored bytes through
`BinaryValue::assign`; the status reports hit/miss/failure), then:
`if (!status.ok()) return work_result(ATOM_NOT_FOUND);`
`return work_result(local_env(), ATOM_OK, value_bin);`. -/
def GetTask.DoWork (o : GetOutcome) : GetRun :=
  let env0 : List Bytes := []
  let run :=
    match o with
    | .found v =>
        let (env1, value_bin) := BinaryValue.assign env0 v
        (env1, some value_bin, Status.ok)
    | .missing => (env0, none, Status.notFound "NotFound:")
    | .ioFailure msg => (env0, none, Status.ioError msg)
  match run with
  | (env1, value_bin, status) =>
      if !status.isOk then { result := .notFound, allocations := env1 }
      else { result := .okPayload (value_bin.getD ""), allocations := env1 }

/-! ## WriteTask (`workitems.h` lines 150-181) -/

/-- One mutation of a `leveldb::WriteBatch`. -/
inductive BatchOp
  | put (k v : Bytes)
  | del (k : Bytes)
  deriving DecidableEq, Repr

/-- A `leveldb::WriteBatch` is an ordered list of mutations. -/
abbrev WriteBatch := List BatchOp

/-- The engine's key-value store, as an association list. -/
abbrev Db := List (Bytes × Bytes)

def dbPut (db : Db) (k v : Bytes) : Db :=
  (k, v) :: db.filter (fun kv => kv.1 ≠ k)

def dbDel (db : Db) (k : Bytes) : Db :=
  db.filter (fun kv => kv.1 ≠ k)

def applyOp (db : Db) : BatchOp → Db
  | .put k v => dbPut db k v
  | .del k => dbDel db k

/-- Applying a whole batch in order. -/
def applyBatch (db : Db) (b : WriteBatch) : Db :=
  b.foldl applyOp db

/-- The engine collaborator's `DB::Write(options, batch)` per its contract
`write(handle, batch, writeConfig) → ok|error`: the batch is applied
atomically — on success the whole batch is applied and the status is ok;
on failure (injected as `fail = some msg`) nothing is applied and the
status carries the diagnostic. -/
def engineWrite (db : Db) (b : WriteBatch) (fail : Option Bytes) :
    Db × Status :=
  match fail with
  | none => (applyBatch db b, Status.ok)
  | some msg => (db, Status.ioError msg)

/-- What one run of `WriteTask::DoWork` produced: the engine's state
afterwards and the returned `work_result`. -/
structure WriteRun where
  db : Db
  result : WResult
  deriving DecidableEq, Repr

/-- `WriteTask::DoWork`:
`leveldb::Status status = m_DbPtr->m_Db->Write(*options, batch);`
`return (status.ok() ? work_result(ATOM_OK)`
`                    : work_result(local_env(), ATOM_ERROR_DB_WRITE, status));`. -/
def WriteTask.DoWork (db : Db) (batch : WriteBatch) (fail : Option Bytes) :
    WriteRun :=
  let (db1, status) := engineWrite db batch fail
  { db := db1
    result :=
      if status.isOk then .okAtom
      else .errorStatus "error_db_write" status.text }

/-! ## Reference-counted handles (`refobjects.h`, modelled from the spec)
and CloseTask / ItrCloseTask (`workitems.h` lines 367-456) -/

/-- Modelled from the spec: the `RefObject` state behind `DbObject` and
`ItrObject` of `refobjects.h` (not under `src/`) — an atomic reference
count, a monotonic false→true closing flag, and whether the native engine
object has been released. -/
structure RefObject where
  refCount : Nat
  closing : Bool
  released : Bool
  deriving DecidableEq, Repr

/-- Modelled from the spec: `ReferencePtr::assign(NULL)` — clearing a
`ReferencePtr` decrements its target's reference count when the pointer
was non-null, and is a no-op when it was already null.  Returns the new
pointer value (always null) and the updated target state, if any. -/
def ReferencePtr.assignNull (p : Option RefObject) :
    Option RefObject × Option RefObject :=
  match p with
  | some h => (none, some { h with refCount := h.refCount - 1 })
  | none => (none, none)

/-- Modelled from the spec: `InitiateCloseRequest` of `refobjects.h` —
flips the closing flag (idempotently: it is already-true-safe and
monotonic), performs a blocking wait until the handle's reference count
drains to zero, then releases the native resources.  The blocking drain
is modelled by its post-state: count zero, closing set, native released. -/
def InitiateCloseRequest (_h : RefObject) : RefObject :=
  { refCount := 0, closing := true, released := true }

/-- What one run of `CloseTask::DoWork` / `ItrCloseTask::DoWork`
produced: the returned `work_result`, whether the blocking drain wait was
performed, the handle state at the moment `InitiateCloseRequest` began
(if it was called), and the handle's final state (if the task ever held
one). -/
structure CloseRun where
  result : WResult
  blocked : Bool
  atInitiate : Option RefObject
  final : Option RefObject
  deriving DecidableEq, Repr

/-- `CloseTask::DoWork`: save `db_ptr = m_DbPtr.get()`, clear the task's
own reference with `m_DbPtr.assign(NULL)`, then — if `db_ptr` was
non-null — call the blocking `db_ptr->InitiateCloseRequest()` and return
`work_result(ATOM_OK)`; otherwise return
`work_result(local_env(), ATOM_ERROR, ATOM_BADARG)` without blocking.
The input is the task's `m_DbPtr` together with its target's state. -/
def CloseTask.DoWork (m_DbPtr : Option RefObject) : CloseRun :=
  let db_ptr := m_DbPtr
  let (_, target1) := ReferencePtr.assignNull m_DbPtr
  match db_ptr, target1 with
  | some _, some h1 =>
      { result := .okAtom
        blocked := true
        atInitiate := some h1
        final := some (InitiateCloseRequest h1) }
  | _, _ =>
      { result := .errorBadArg
        blocked := false
        atInitiate := none
        final := none }

/-- `ItrCloseTask::DoWork`: identical shape over the task's `m_ItrPtr`
(a `ReferencePtr<ItrObject>`): save `itr_ptr = m_ItrPtr.get()`, clear the
reference with `m_ItrPtr.assign(NULL)`, then either run the blocking
`itr_ptr->InitiateCloseRequest()` and return OK, or return
`{error, badarg}` without blocking. -/
def ItrCloseTask.DoWork (m_ItrPtr : Option RefObject) : CloseRun :=
  let itr_ptr := m_ItrPtr
  let (_, target1) := ReferencePtr.assignNull m_ItrPtr
  match itr_ptr, target1 with
  | some _, some h1 =>
      { result := .okAtom
        blocked := true
        atInitiate := some h1
        final := some (InitiateCloseRequest h1) }
  | _, _ =>
      { result := .errorBadArg
        blocked := false
        atInitiate := none
        final := none }

/-! ## WorkTask reference retention (`workitems.h` lines 71-115),
modelled from the spec for the constructor/destructor bodies of
`workitems.cc` and the `ReferencePtr` machinery of `refobjects.h` -/

/-- Modelled from the spec: a handle's reference count as the collection
of its live holders, identified by id — the count the atomic counter
tracks is the number of live `ReferencePtr`s. -/
structure Handle where
  holders : List Nat
  deriving DecidableEq, Repr

/-- The handle's reference count: the number of live holders. -/
def Handle.refCount (h : Handle) : Nat := h.holders.length

/-- Modelled from the spec: the `WorkTask(caller_env, caller_ref, DbPtr)`
constructor — the task's member `m_DbPtr` retains the `DbObject`,
incrementing its reference count: holder `tid` (the task) is added. -/
def WorkTask.construct (tid : Nat) (h : Handle) : Handle :=
  ⟨tid :: h.holders⟩

/-- Modelled from the spec: `~WorkTask()` — the task's `m_DbPtr` member
is destroyed with the task, decrementing the count: holder `tid` is
removed. -/
def WorkTask.destruct (tid : Nat) (h : Handle) : Handle :=
  ⟨h.holders.erase tid⟩

/-- A reference-count event performed by some other holder (another task
or the caller runtime) while a task is alive. -/
inductive RefOp
  | acquire (id : Nat)
  | release (id : Nat)
  deriving DecidableEq, Repr

def Handle.applyOp (h : Handle) : RefOp → Handle
  | .acquire id => ⟨id :: h.holders⟩
  | .release id => ⟨h.holders.erase id⟩

def Handle.applyOps (h : Handle) (ops : List RefOp) : Handle :=
  ops.foldl Handle.applyOp h

/-! ## MoveTask construction (`workitems.h` lines 314-360) -/

/-- `MoveTask`'s two constructors both run the initializer list
`WorkTask(NULL, _caller_ref, Iter->m_DbPtr), m_Itr(Iter)`: the base
`WorkTask` retains the iterator's *owning database* handle
(`Iter->m_DbPtr`), and the member `m_Itr` retains the iterator handle
itself.  The result is the pair (database handle, iterator handle) after
construction by task `tid`. -/
def MoveTask.construct (tid : Nat) (db itr : Handle) : Handle × Handle :=
  (WorkTask.construct tid db, ⟨tid :: itr.holders⟩)

/-! ## Task environments and reply correlation
(`workitems.h` lines 76-103, 290-353) -/

/-- The env-and-terms portion of a `WorkTask`'s state (`workitems.h`
lines 76-81): the owned `local_env_` (`none` models the NULL pointer),
the reply terms `caller_ref_term` / `caller_pid_term` (`none` models a
term that was never created), the `terms_set` flag, and the caller pid
`local_pid` kept for the task's lifetime. -/
structure TaskEnv where
  local_env_ : Option Nat
  caller_ref_term : Option Nat
  caller_pid_term : Option Nat
  terms_set : Bool
  local_pid : Nat
  deriving DecidableEq, Repr

/-- `enif_make_copy(env, term)`: copying a term into an environment
requires the environment to be live — against a NULL environment no term
is produced (the call would crash). -/
def enif_make_copy (env : Option Nat) (t : Option Nat) : Option Nat :=
  match env with
  | none => none
  | some _ => t

/-- `enif_make_pid(env, pid)`: likewise requires a live environment. -/
def enif_make_pid (env : Option Nat) (p : Nat) : Option Nat :=
  match env with
  | none => none
  | some _ => some p

/-- Modelled from the spec: the base `WorkTask(caller_env, caller_ref)`
constructor of `workitems.cc` used by every task variant other than
`MoveTask` — it allocates `local_env_` immediately and copies the
caller's reference and pid terms into it, so the reply-correlation terms
exist from construction (`terms_set = true`). -/
def WorkTask.constructEnv (caller_pid caller_ref : Nat) : TaskEnv :=
  let env := some 1
  { local_env_ := env
    caller_ref_term := enif_make_copy env (some caller_ref)
    caller_pid_term := enif_make_pid env caller_pid
    terms_set := true
    local_pid := caller_pid }

/-- `MoveTask`'s constructor body (`workitems.h` lines 329-337): the base
is called with a NULL env, then the "special case construction" sets
`local_env_ = NULL` and eagerly captures the calling process with
`enif_self(_caller_env, &local_pid)`.  No reply terms exist yet. -/
def MoveTask.constructEnv (caller_pid : Nat) : TaskEnv :=
  { local_env_ := none
    caller_ref_term := none
    caller_pid_term := none
    terms_set := false
    local_pid := caller_pid }

/-- The `ItrObject` fields `IterTask::DoWork` touches (`workitems.h`
lines 290-309): the persisted reply-correlation context — an env owned
by the iterator handle and the copied caller reference reused by every
future move. -/
structure ItrObject where
  itr_ref_env : Option Nat
  itr_ref : Option Nat
  keys_only : Bool
  deriving DecidableEq, Repr

/-- `IterTask::DoWork`: create the `ItrObject` via
`ItrObject::CreateItrObject(m_DbPtr, keys_only, options)` (its
reply-correlation context starts empty), then
`itr_ptr->itr_ref_env = enif_alloc_env();`
`itr_ptr->itr_ref = enif_make_copy(itr_ptr->itr_ref_env, caller_ref());`
— the caller's correlation token is copied into the handle, once, at
creation — then make the resource term, release the creation reference,
and return `work_result(local_env(), ATOM_OK, result)`. -/
def IterTask.DoWork (caller_ref : Nat) (keys_only : Bool) (resId : Nat) :
    ItrObject × WResult :=
  let itr0 : ItrObject :=
    { itr_ref_env := none, itr_ref := none, keys_only := keys_only }
  let env := some 1
  let itr1 := { itr0 with
                itr_ref_env := env
                itr_ref := enif_make_copy env (some caller_ref) }
  (itr1, .okResource resId)

/-- Modelled from the spec: `MoveTask::local_env()` of `workitems.cc` —
the overridden virtual lazily allocates the environment when it is still
NULL, and (once) builds the reply terms there: `caller_ref_term` as a
copy of the IteratorHandle's persisted `itr_ref`, `caller_pid_term` from
the eagerly captured `local_pid`. -/
def MoveTask.local_env (itr : ItrObject) (s : TaskEnv) : TaskEnv :=
  let env :=
    match s.local_env_ with
    | none => some 1
    | some e => some e
  if s.terms_set then { s with local_env_ := env }
  else
    { s with
      local_env_ := env
      caller_ref_term := enif_make_copy env itr.itr_ref
      caller_pid_term := enif_make_pid env s.local_pid
      terms_set := true }

/-- `WorkTask::caller_ref()` (`workitems.h` line 102), as specialized by
`MoveTask`'s `local_env()` override: `{ local_env(); return
caller_ref_term; }` — the accessor calls `local_env()` *first* (the
comment at line 101: "call local_env() since the virtual creates the
data in MoveTask") and only then reads the term.  Returns the state
after the forced `local_env()` call together with the term read. -/
def MoveTask.caller_ref (itr : ItrObject) (s : TaskEnv) :
    TaskEnv × Option Nat :=
  let s1 := MoveTask.local_env itr s
  (s1, s1.caller_ref_term)

/-- `WorkTask::pid()` (`workitems.h` line 103), as specialized by
`MoveTask`: `{ local_env(); return caller_pid_term; }`. -/
def MoveTask.pid (itr : ItrObject) (s : TaskEnv) : TaskEnv × Option Nat :=
  let s1 := MoveTask.local_env itr s
  (s1, s1.caller_pid_term)

/-! ## MoveTask's iterator state machine

`MoveTask::DoWork` is declared at `workitems.h` line 358 but its body
lives in `workitems.cc`, which is not under `src/`; the state machine is
modelled from the spec (§4.6 "MoveTask — iterator state machine" and the
glossary's "Exhausted state"). -/

/-- The `action_t` enum of `MoveTask` (`workitems.h` line 317). -/
inductive Action
  | FIRST
  | LAST
  | NEXT
  | PREV
  | SEEK
  | PREFETCH
  | PREFETCH_STOP
  deriving DecidableEq, Repr

/-- An iterator position over the engine's sorted key sequence: a valid
index, or one of the two well-defined exhausted states — one step below
the first key or one step above the last. -/
inductive ItrPos
  | beforeFirst
  | atIndex (i : Nat)
  | afterLast
  deriving DecidableEq, Repr

/-- A position is well formed for a key sequence when a valid index is
in bounds. -/
def posWF (keys : Db) : ItrPos → Prop
  | .atIndex i => i < keys.length
  | _ => True

instance (keys : Db) (p : ItrPos) : Decidable (posWF keys p) := by
  cases p <;> simp only [posWF] <;> infer_instance

/-- The index of the first key ≥ `target` in the sorted key sequence
(LevelDB's `Seek` semantics under the lexicographic byte comparator). -/
def seekIdx (target : Bytes) : Db → Option Nat
  | [] => none
  | kv :: rest =>
      if target ≤ kv.1 then some 0
      else (seekIdx target rest).map (· + 1)

/-- Modelled from the spec: the positional transition of one move.
`FIRST`/`LAST` reposition to the engine's first/last key (exhausting the
iterator when the sequence is empty); `NEXT`/`PREV` step one position,
moving into the adjacent exhausted state past either bound, and from an
exhausted state the opposite direction's move recovers the nearest valid
key; `SEEK` repositions to the first key ≥ target (lexicographic byte
order), exhausting past the upper bound when there is none; `PREFETCH`
steps forward one position like `NEXT`; `PREFETCH_STOP` cancels
read-ahead bookkeeping with no positional change. -/
def moveStep (keys : Db) (pos : ItrPos) (a : Action) (target : Bytes) :
    ItrPos :=
  match a with
  | .FIRST => if keys.length = 0 then .afterLast else .atIndex 0
  | .LAST => if keys.length = 0 then .beforeFirst else .atIndex (keys.length - 1)
  | .NEXT =>
      match pos with
      | .beforeFirst => if keys.length = 0 then .afterLast else .atIndex 0
      | .atIndex i => if i + 1 < keys.length then .atIndex (i + 1) else .afterLast
      | .afterLast => .afterLast
  | .PREV =>
      match pos with
      | .beforeFirst => .beforeFirst
      | .atIndex i => if i = 0 then .beforeFirst else .atIndex (i - 1)
      | .afterLast => if keys.length = 0 then .beforeFirst else .atIndex (keys.length - 1)
  | .SEEK =>
      match seekIdx target keys with
      | some i => .atIndex i
      | none => .afterLast
  | .PREFETCH =>
      match pos with
      | .beforeFirst => if keys.length = 0 then .afterLast else .atIndex 0
      | .atIndex i => if i + 1 < keys.length then .atIndex (i + 1) else .afterLast
      | .afterLast => .afterLast
  | .PREFETCH_STOP => pos

/-- The OK result at a valid index: the key there, and the value too
unless the iterator is keys-only. -/
def resultAt (keys_only : Bool) (keys : Db) (i : Nat) : WResult :=
  match keys[i]? with
  | some kv => if keys_only then .okKey kv.1 else .okKeyVal kv.1 kv.2
  | none => .outOfRange

/-- Modelled from the spec: the result of one move given the position it
reached — `PREFETCH_STOP` is always OK with no positional data;
otherwise a valid position yields OK with its key (and value unless
keys-only) and an exhausted position yields the out-of-range result. -/
def moveResult (keys_only : Bool) (keys : Db) (a : Action)
    (posAfter : ItrPos) : WResult :=
  if a = .PREFETCH_STOP then .okAtom
  else
    match posAfter with
    | .atIndex i => resultAt keys_only keys i
    | _ => .outOfRange

/-- Modelled from the spec: `MoveTask::DoWork` — any move invoked on a
closed/closing IteratorHandle returns `{error, badarg}` and moves
nothing; otherwise the iterator transitions per `moveStep` and the
result is read off the reached position per `moveResult`. -/
def MoveTask.DoWork (closing keys_only : Bool) (keys : Db) (pos : ItrPos)
    (a : Action) (target : Bytes) : ItrPos × WResult :=
  if closing then (pos, .errorBadArg)
  else
    let pos1 := moveStep keys pos a target
    (pos1, moveResult keys_only keys a pos1)

/-! ## Claim theorems -/

/-- C1 counterexample: on an engine I/O failure `GetTask::DoWork` does
*not* return an ERROR result — the source's
`if (!status.ok()) return work_result(ATOM_NOT_FOUND);` folds every
non-ok status, diagnostic included, into `NOT_FOUND`. -/
theorem getTask_ioFailure_yields_notFound_counterexample :
    (GetTask.DoWork (GetOutcome.ioFailure "IO error: disk read failed")).result
      = WResult.notFound
    ∧ (GetTask.DoWork (GetOutcome.ioFailure "IO error: disk read failed")).result.isError
      = false :=
  ⟨rfl, rfl⟩

/-- C1 (amended): a lookup miss yields `NOT_FOUND` and never ERROR, and
an engine I/O failure *also* yields `NOT_FOUND` (not ERROR with the
diagnostic text): `GetTask::DoWork` maps every non-ok engine status to
the `NOT_FOUND` result and never produces an ERROR result. -/
theorem getTask_nonOk_always_notFound :
    (GetTask.DoWork GetOutcome.missing).result = WResult.notFound
    ∧ (∀ m, (GetTask.DoWork (GetOutcome.ioFailure m)).result = WResult.notFound)
    ∧ (∀ o, (GetTask.DoWork o).result.isError = false) := by
  refine ⟨rfl, fun m => rfl, fun o => ?_⟩
  cases o <;> rfl

/-- C5: `WriteTask::DoWork` applies the batch atomically against the
referenced handle's engine instance — on engine success the new state is
exactly `applyBatch` of the whole batch and the result is `ATOM_OK`; on
engine failure nothing is applied and the result is
`{error_db_write, StatusText}` carrying the engine's diagnostic. -/
theorem writeTask_atomic_result (db : Db) (batch : WriteBatch) :
    (WriteTask.DoWork db batch none).db = applyBatch db batch
    ∧ (WriteTask.DoWork db batch none).result = WResult.okAtom
    ∧ (∀ m, (WriteTask.DoWork db batch (some m)).db = db
        ∧ (WriteTask.DoWork db batch (some m)).result
            = WResult.errorStatus "error_db_write" m) :=
  ⟨rfl, rfl, fun _ => ⟨rfl, rfl⟩⟩

/-- C6: on a hit, `GetTask::DoWork` returns OK with a payload that is
exactly the stored value bytes, and the only binary allocated into the
task's env is that payload itself — `BinaryValue::assign` writes the
engine's bytes directly into the reply binary, with no intermediate
copy. -/
theorem getTask_hit_zero_copy (v : Bytes) :
    (GetTask.DoWork (GetOutcome.found v)).result = WResult.okPayload v
    ∧ (GetTask.DoWork (GetOutcome.found v)).allocations = [v] :=
  ⟨rfl, rfl⟩

/-- C2: with a non-null handle reference, `CloseTask::DoWork` and
`ItrCloseTask::DoWork` flip the closing flag (whatever its prior value),
block for the drain (count reaches zero), release the native resources
and return OK; with a null reference they return `{error, badarg}`
without blocking. -/
theorem closeTasks_blocking_close (h : RefObject) :
    ((CloseTask.DoWork (some h)).result = WResult.okAtom
      ∧ (CloseTask.DoWork (some h)).blocked = true
      ∧ (CloseTask.DoWork (some h)).final
          = some { refCount := 0, closing := true, released := true })
    ∧ ((CloseTask.DoWork none).result = WResult.errorBadArg
      ∧ (CloseTask.DoWork none).blocked = false)
    ∧ ((ItrCloseTask.DoWork (some h)).result = WResult.okAtom
      ∧ (ItrCloseTask.DoWork (some h)).blocked = true
      ∧ (ItrCloseTask.DoWork (some h)).final
          = some { refCount := 0, closing := true, released := true })
    ∧ ((ItrCloseTask.DoWork none).result = WResult.errorBadArg
      ∧ (ItrCloseTask.DoWork none).blocked = false) :=
  ⟨⟨rfl, rfl, rfl⟩, ⟨rfl, rfl⟩, ⟨rfl, rfl, rfl⟩, ⟨rfl, rfl⟩⟩

/-- C8: both close tasks null their own retained reference first —
`assign(NULL)` leaves the pointer null, and the handle state at the
moment the blocking `InitiateCloseRequest` begins already has the task's
own reference released (count decremented by one). -/
theorem closeTasks_release_own_ref_before_drain (h : RefObject) :
    (ReferencePtr.assignNull (some h)).1 = none
    ∧ (CloseTask.DoWork (some h)).atInitiate
        = some { h with refCount := h.refCount - 1 }
    ∧ (ItrCloseTask.DoWork (some h)).atInitiate
        = some { h with refCount := h.refCount - 1 } :=
  ⟨rfl, rfl, rfl⟩

theorem holder_mem_applyOps (tid : Nat) (h : Handle) (ops : List RefOp)
    (hmem : tid ∈ h.holders) (hops : ∀ op ∈ ops, op ≠ RefOp.release tid) :
    tid ∈ (h.applyOps ops).holders := by
  induction ops generalizing h with
  | nil => exact hmem
  | cons op rest ih =>
    have hop : op ≠ RefOp.release tid := hops op (List.mem_cons_self op rest)
    have hrest : ∀ o ∈ rest, o ≠ RefOp.release tid :=
      fun o ho => hops o (List.mem_cons_of_mem _ ho)
    show tid ∈ ((h.applyOp op).applyOps rest).holders
    cases op with
    | acquire id =>
      exact ih ⟨id :: h.holders⟩ (List.mem_cons_of_mem id hmem) hrest
    | release id =>
      have hne : tid ≠ id := fun he => hop (by rw [he])
      exact ih ⟨h.holders.erase id⟩ ((List.mem_erase_of_ne hne).mpr hmem) hrest

/-- C7: a task constructed with a `DbHandle` reference retains it for
its lifetime — construction increments the handle's count by one,
destruction decrements it back, and under any interleaved
acquire/release activity that does not release the task's own reference
the task stays a holder and the count stays at least one. -/
theorem workTask_handle_refcount (tid : Nat) (h : Handle) (ops : List RefOp)
    (hops : ∀ op ∈ ops, op ≠ RefOp.release tid) :
    (WorkTask.construct tid h).refCount = h.refCount + 1
    ∧ (WorkTask.destruct tid (WorkTask.construct tid h)).refCount = h.refCount
    ∧ tid ∈ ((WorkTask.construct tid h).applyOps ops).holders
    ∧ 1 ≤ ((WorkTask.construct tid h).applyOps ops).refCount := by
  have hmem : tid ∈ (WorkTask.construct tid h).holders :=
    List.mem_cons_self tid h.holders
  have halive := holder_mem_applyOps tid (WorkTask.construct tid h) ops hmem hops
  refine ⟨?_, ?_, halive, List.length_pos_of_mem halive⟩
  · simp [WorkTask.construct, Handle.refCount]
  · simp [WorkTask.construct, WorkTask.destruct, Handle.refCount]

/-- Witness for C7 at a concrete input: task 0 retains the only
reference to a fresh handle while holder 1 acquires and releases. -/
theorem workTask_handle_refcount_witness :
    (∀ op ∈ [RefOp.acquire 1, RefOp.release 1], op ≠ RefOp.release 0)
    ∧ ((WorkTask.construct 0 ⟨[]⟩).refCount = Handle.refCount ⟨[]⟩ + 1
      ∧ (WorkTask.destruct 0 (WorkTask.construct 0 ⟨[]⟩)).refCount
          = Handle.refCount ⟨[]⟩
      ∧ 0 ∈ ((WorkTask.construct 0 ⟨[]⟩).applyOps
          [RefOp.acquire 1, RefOp.release 1]).holders
      ∧ 1 ≤ ((WorkTask.construct 0 ⟨[]⟩).applyOps
          [RefOp.acquire 1, RefOp.release 1]).refCount) :=
  ⟨by decide,
   workTask_handle_refcount 0 ⟨[]⟩ [RefOp.acquire 1, RefOp.release 1] (by decide)⟩

/-- C9: `MoveTask`'s construction passes the iterator's owning
`Iter->m_DbPtr` to the `WorkTask` base, so the database handle's count
is incremented (hence at least one) for the task's lifetime,
independently of the iterator handle, which the member `m_Itr` retains
separately. -/
theorem moveTask_retains_db_reference (tid : Nat) (db itr : Handle) :
    (MoveTask.construct tid db itr).1 = WorkTask.construct tid db
    ∧ ((MoveTask.construct tid db itr).1).refCount = db.refCount + 1
    ∧ 1 ≤ ((MoveTask.construct tid db itr).1).refCount
    ∧ (∀ itr2, (MoveTask.construct tid db itr2).1
        = (MoveTask.construct tid db itr).1)
    ∧ tid ∈ ((MoveTask.construct tid db itr).2).holders := by
  refine ⟨rfl, ?_, ?_, fun _ => rfl, List.mem_cons_self _ _⟩
  · simp [MoveTask.construct, WorkTask.construct, Handle.refCount]
  · exact List.length_pos_of_mem (List.mem_cons_self tid db.holders)

/-- C10: `MoveTask` alone is constructed with `local_env_ = NULL` while
eagerly capturing the caller's pid via `enif_self`; its overridden
`local_env()` always yields a live environment, the base accessors
`caller_ref()` / `pid()` force `local_env()` before reading the terms,
and the terms they return were built against that live environment —
never by dereferencing the null one.  Every other variant's base
constructor allocates the environment at construction. -/
theorem moveTask_null_env_lazy_safe (p : Nat) (itr : ItrObject) :
    (MoveTask.constructEnv p).local_env_ = none
    ∧ (MoveTask.constructEnv p).local_pid = p
    ∧ (∀ r, ((WorkTask.constructEnv p r).local_env_).isSome = true)
    ∧ (∀ s, ((MoveTask.local_env itr s).local_env_).isSome = true)
    ∧ (∀ s, (MoveTask.caller_ref itr s).1 = MoveTask.local_env itr s)
    ∧ (∀ s, (MoveTask.pid itr s).1 = MoveTask.local_env itr s)
    ∧ (MoveTask.pid itr (MoveTask.constructEnv p)).2 = some p
    ∧ (MoveTask.caller_ref itr (MoveTask.constructEnv p)).2 = itr.itr_ref := by
  refine ⟨rfl, rfl, fun r => rfl, fun s => ?_, fun s => rfl, fun s => rfl, rfl, rfl⟩
  unfold MoveTask.local_env
  cases hs : s.local_env_ <;> cases ht : s.terms_set <;> simp [hs, ht]

/-- C3: `IterTask::DoWork` copies the caller's correlation token into
the new IteratorHandle's persisted reply-correlation context exactly
once at creation (`itr_ref`, in its own `itr_ref_env`), and every
subsequent `MoveTask` — whatever transient caller constructed it, and
across repeated accessor calls — delivers through that persisted token,
not through a fresh per-call caller reference. -/
theorem iterTask_captures_ref_once_moves_reuse
    (r : Nat) (ko : Bool) (res p1 p2 : Nat) :
    ((IterTask.DoWork r ko res).1).itr_ref = some r
    ∧ (((IterTask.DoWork r ko res).1).itr_ref_env).isSome = true
    ∧ (IterTask.DoWork r ko res).2 = WResult.okResource res
    ∧ (MoveTask.caller_ref (IterTask.DoWork r ko res).1
        (MoveTask.constructEnv p1)).2 = some r
    ∧ (MoveTask.caller_ref (IterTask.DoWork r ko res).1
        (MoveTask.constructEnv p2)).2 = some r
    ∧ (MoveTask.caller_ref (IterTask.DoWork r ko res).1
        ((MoveTask.caller_ref (IterTask.DoWork r ko res).1
          (MoveTask.constructEnv p1)).1)).2 = some r :=
  ⟨rfl, rfl, rfl, rfl, rfl, rfl⟩

theorem seekIdx_lt_length {target : Bytes} {keys : Db} {i : Nat}
    (h : seekIdx target keys = some i) : i < keys.length := by
  induction keys generalizing i with
  | nil => simp [seekIdx] at h
  | cons kv rest ih =>
    simp only [seekIdx] at h
    split at h
    · injection h with h1
      subst h1
      simp
    · rcases Option.map_eq_some'.mp h with ⟨j, hj, hji⟩
      subst hji
      have := ih hj
      simp only [List.length_cons]
      omega

theorem moveStep_wf (keys : Db) (pos : ItrPos) (a : Action) (target : Bytes)
    (h : posWF keys pos) : posWF keys (moveStep keys pos a target) := by
  cases a with
  | FIRST =>
    simp only [moveStep]
    split
    · trivial
    · next hk => show 0 < keys.length; omega
  | LAST =>
    simp only [moveStep]
    split
    · trivial
    · next hk => show keys.length - 1 < keys.length; omega
  | NEXT =>
    cases pos with
    | beforeFirst =>
      simp only [moveStep]
      split
      · trivial
      · next hk => show 0 < keys.length; omega
    | atIndex i =>
      simp only [moveStep]
      split
      · next hk => exact hk
      · trivial
    | afterLast => trivial
  | PREV =>
    cases pos with
    | beforeFirst => trivial
    | atIndex i =>
      simp only [moveStep]
      split
      · trivial
      · next hk =>
        show i - 1 < keys.length
        have hi : i < keys.length := h
        omega
    | afterLast =>
      simp only [moveStep]
      split
      · trivial
      · next hk => show keys.length - 1 < keys.length; omega
  | SEEK =>
    simp only [moveStep]
    split
    · next i hs => exact seekIdx_lt_length hs
    · trivial
  | PREFETCH =>
    cases pos with
    | beforeFirst =>
      simp only [moveStep]
      split
      · trivial
      · next hk => show 0 < keys.length; omega
    | atIndex i =>
      simp only [moveStep]
      split
      · next hk => exact hk
      · trivial
    | afterLast => trivial
  | PREFETCH_STOP => exact h

theorem resultAt_eq (ko : Bool) {keys : Db} {i : Nat} (hi : i < keys.length) :
    ∃ kv, keys[i]? = some kv
      ∧ resultAt ko keys i
          = (if ko then WResult.okKey kv.1 else WResult.okKeyVal kv.1 kv.2) := by
  refine ⟨keys.get ⟨i, hi⟩, ?_, ?_⟩
  · rw [List.getElem?_eq_getElem hi]
    rfl
  · unfold resultAt
    rw [List.getElem?_eq_getElem hi]
    rfl

theorem moveResult_okKey_shape {ko : Bool} {keys : Db} {a : Action}
    {p1 : ItrPos} {k : Bytes}
    (h : moveResult ko keys a p1 = WResult.okKey k) :
    ko = true ∧ ∃ i v, p1 = ItrPos.atIndex i ∧ keys[i]? = some (k, v) := by
  by_cases ha : a = Action.PREFETCH_STOP
  · rw [ha] at h
    simp [moveResult] at h
  · cases p1 with
    | beforeFirst => simp [moveResult, ha] at h
    | afterLast => simp [moveResult, ha] at h
    | atIndex i =>
      cases hg : keys[i]? with
      | none => simp [moveResult, resultAt, ha, hg] at h
      | some kv =>
        obtain ⟨k0, v0⟩ := kv
        cases ko with
        | false => simp [moveResult, resultAt, ha, hg] at h
        | true =>
          simp [moveResult, resultAt, ha, hg] at h
          subst h
          exact ⟨rfl, i, v0, rfl, hg⟩

theorem moveResult_okKeyVal_shape {ko : Bool} {keys : Db} {a : Action}
    {p1 : ItrPos} {k v : Bytes}
    (h : moveResult ko keys a p1 = WResult.okKeyVal k v) :
    ko = false ∧ ∃ i, p1 = ItrPos.atIndex i ∧ keys[i]? = some (k, v) := by
  by_cases ha : a = Action.PREFETCH_STOP
  · rw [ha] at h
    simp [moveResult] at h
  · cases p1 with
    | beforeFirst => simp [moveResult, ha] at h
    | afterLast => simp [moveResult, ha] at h
    | atIndex i =>
      cases hg : keys[i]? with
      | none => simp [moveResult, resultAt, ha, hg] at h
      | some kv =>
        obtain ⟨k0, v0⟩ := kv
        cases ko with
        | true => simp [moveResult, resultAt, ha, hg] at h
        | false =>
          simp [moveResult, resultAt, ha, hg] at h
          obtain ⟨hk, hv⟩ := h
          subst hk
          subst hv
          exact ⟨rfl, i, rfl, hg⟩

theorem moveResult_outOfRange_exhausted {ko : Bool} {keys : Db} {a : Action}
    {p1 : ItrPos} (hwf : posWF keys p1)
    (h : moveResult ko keys a p1 = WResult.outOfRange) :
    p1 = ItrPos.beforeFirst ∨ p1 = ItrPos.afterLast := by
  cases p1 with
  | beforeFirst => exact Or.inl rfl
  | afterLast => exact Or.inr rfl
  | atIndex i =>
    exfalso
    by_cases ha : a = Action.PREFETCH_STOP
    · rw [ha] at h
      simp [moveResult] at h
    · obtain ⟨kv, hg, he⟩ := resultAt_eq ko (hwf : i < keys.length)
      simp only [moveResult, ha, if_false] at h
      rw [he] at h
      cases ko <;> simp at h

theorem moveResult_not_errorStatus (ko : Bool) (keys : Db) (a : Action)
    (p1 : ItrPos) (ea em : Bytes) :
    moveResult ko keys a p1 ≠ WResult.errorStatus ea em := by
  by_cases ha : a = Action.PREFETCH_STOP
  · simp [moveResult, ha]
  · cases p1 with
    | beforeFirst => simp [moveResult, ha]
    | afterLast => simp [moveResult, ha]
    | atIndex i =>
      cases hg : keys[i]? with
      | none => simp [moveResult, resultAt, ha, hg]
      | some kv => cases ko <;> simp [moveResult, resultAt, ha, hg]

/-- C4: `MoveTask`'s result policy — on a closed/closing handle any move
returns `{error, badarg}` with no repositioning; otherwise a move that
delivers OK carries exactly the key (and the value unless keys-only) at
the position it reached, an out-of-range outcome (never OK, never an
engine ERROR) leaves the iterator in one of the two exhausted states,
and from an exhausted state the opposite direction's move returns the
nearest valid position's key. -/
theorem moveTask_result_policy (closing keys_only : Bool) (keys : Db)
    (pos pos1 : ItrPos) (a : Action) (target : Bytes) (r : WResult)
    (hwf : posWF keys pos)
    (hrun : MoveTask.DoWork closing keys_only keys pos a target = (pos1, r)) :
    (closing = true → pos1 = pos ∧ r = WResult.errorBadArg)
    ∧ (closing = false → posWF keys pos1
      ∧ (∀ k, r = WResult.okKey k → keys_only = true
          ∧ ∃ i v, pos1 = ItrPos.atIndex i ∧ keys[i]? = some (k, v))
      ∧ (∀ k v, r = WResult.okKeyVal k v → keys_only = false
          ∧ ∃ i, pos1 = ItrPos.atIndex i ∧ keys[i]? = some (k, v))
      ∧ (r = WResult.outOfRange →
          (pos1 = ItrPos.beforeFirst ∨ pos1 = ItrPos.afterLast)
          ∧ r.isError = false)
      ∧ (∀ ea em, r ≠ WResult.errorStatus ea em))
    ∧ (keys ≠ [] →
        (∃ k v, keys[keys.length - 1]? = some (k, v)
          ∧ MoveTask.DoWork false keys_only keys ItrPos.afterLast
              Action.PREV target
            = (ItrPos.atIndex (keys.length - 1),
               if keys_only then WResult.okKey k else WResult.okKeyVal k v))
        ∧ (∃ k v, keys[0]? = some (k, v)
          ∧ MoveTask.DoWork false keys_only keys ItrPos.beforeFirst
              Action.NEXT target
            = (ItrPos.atIndex 0,
               if keys_only then WResult.okKey k else WResult.okKeyVal k v))) := by
  refine ⟨?_, ?_, ?_⟩
  · intro hc
    subst hc
    simp only [MoveTask.DoWork, if_true] at hrun
    exact ⟨(Prod.mk.injEq _ _ _ _ ▸ hrun).1.symm, (Prod.mk.injEq _ _ _ _ ▸ hrun).2.symm⟩
  · intro hc
    subst hc
    simp only [MoveTask.DoWork, Bool.false_eq_true, if_false] at hrun
    obtain ⟨h1, h2⟩ := Prod.mk.injEq _ _ _ _ ▸ hrun
    subst h1
    subst h2
    refine ⟨moveStep_wf keys pos a target hwf, ?_, ?_, ?_, ?_⟩
    · intro k hk
      exact moveResult_okKey_shape hk
    · intro k v hkv
      exact moveResult_okKeyVal_shape hkv
    · intro ho
      refine ⟨moveResult_outOfRange_exhausted
        (moveStep_wf keys pos a target hwf) ho, ?_⟩
      rw [ho]
      rfl
    · intro ea em
      exact moveResult_not_errorStatus keys_only keys a _ ea em
  · intro hne
    have hlen : keys.length ≠ 0 := fun h0 => hne (List.length_eq_zero.mp h0)
    have hlt : keys.length - 1 < keys.length := by omega
    have hlt0 : 0 < keys.length := by omega
    obtain ⟨kv, hg, he⟩ := resultAt_eq keys_only hlt
    obtain ⟨kv0, hg0, he0⟩ := resultAt_eq keys_only hlt0
    constructor
    · refine ⟨kv.1, kv.2, hg, ?_⟩
      have hstep : moveStep keys ItrPos.afterLast Action.PREV target
          = ItrPos.atIndex (keys.length - 1) := by
        simp [moveStep, hlen]
      have hres : moveResult keys_only keys Action.PREV
          (ItrPos.atIndex (keys.length - 1))
          = resultAt keys_only keys (keys.length - 1) := by
        simp [moveResult]
      simp only [MoveTask.DoWork, Bool.false_eq_true, if_false]
      rw [hstep, hres, he]
    · refine ⟨kv0.1, kv0.2, hg0, ?_⟩
      have hstep0 : moveStep keys ItrPos.beforeFirst Action.NEXT target
          = ItrPos.atIndex 0 := by
        simp [moveStep, hlen]
      have hres0 : moveResult keys_only keys Action.NEXT (ItrPos.atIndex 0)
          = resultAt keys_only keys 0 := by
        simp [moveResult]
      simp only [MoveTask.DoWork, Bool.false_eq_true, if_false]
      rw [hstep0, hres0, he0]

/-- Witness for C4 at a concrete input: a two-key store, iterator on the
last key, `NEXT` oversteps into the exhausted-high state with the
out-of-range result. -/
theorem moveTask_result_policy_witness :
    posWF [("a", "1"), ("b", "2")] (ItrPos.atIndex 1)
    ∧ MoveTask.DoWork false false [("a", "1"), ("b", "2")]
        (ItrPos.atIndex 1) Action.NEXT ""
        = (ItrPos.afterLast, WResult.outOfRange)
    ∧ ((false = true → ItrPos.afterLast = ItrPos.atIndex 1
          ∧ WResult.outOfRange = WResult.errorBadArg)
      ∧ (false = false → posWF [("a", "1"), ("b", "2")] ItrPos.afterLast
        ∧ (∀ k, WResult.outOfRange = WResult.okKey k → false = true
            ∧ ∃ i v, ItrPos.afterLast = ItrPos.atIndex i
              ∧ [("a", "1"), ("b", "2")][i]? = some (k, v))
        ∧ (∀ k v, WResult.outOfRange = WResult.okKeyVal k v → false = false
            ∧ ∃ i, ItrPos.afterLast = ItrPos.atIndex i
              ∧ [("a", "1"), ("b", "2")][i]? = some (k, v))
        ∧ (WResult.outOfRange = WResult.outOfRange →
            (ItrPos.afterLast = ItrPos.beforeFirst
              ∨ ItrPos.afterLast = ItrPos.afterLast)
            ∧ WResult.outOfRange.isError = false)
        ∧ (∀ ea em, WResult.outOfRange ≠ WResult.errorStatus ea em))
      ∧ ([("a", "1"), ("b", "2")] ≠ ([] : Db) →
          (∃ k v, [("a", "1"), ("b", "2")][([("a", "1"), ("b", "2")] : Db).length - 1]?
              = some (k, v)
            ∧ MoveTask.DoWork false false [("a", "1"), ("b", "2")]
                ItrPos.afterLast Action.PREV ""
              = (ItrPos.atIndex ([("a", "1"), ("b", "2")].length - 1),
                 if false then WResult.okKey k else WResult.okKeyVal k v))
          ∧ (∃ k v, [("a", "1"), ("b", "2")][0]? = some (k, v)
            ∧ MoveTask.DoWork false false [("a", "1"), ("b", "2")]
                ItrPos.beforeFirst Action.NEXT ""
              = (ItrPos.atIndex 0,
                 if false then WResult.okKey k else WResult.okKeyVal k v)))) := by
  refine ⟨by decide, rfl, ?_⟩
  have hh := moveTask_result_policy false false [("a", "1"), ("b", "2")]
    (ItrPos.atIndex 1) ItrPos.afterLast Action.NEXT "" WResult.outOfRange
  exact hh (by decide) rfl

end Eleveldb
